import Mathlib

/-!
Verification development for the `shop-youtube-channel` plugin
(`src/index.ts`).  The plugin's core is a reconciliation engine: it
compares the filtered current catalog of a YouTube channel against the
set of previously materialized file identifiers and produces a change
set of `add` / `delete` entries.

The embedding below mirrors the TypeScript source:
 * `parseDuration`   — `parseDuration` (ISO-8601 `PT..H..M..S` to seconds);
 * `parseDropAfter`  — `parseDropAfter` (expiry expression to milliseconds,
                        throwing on an unknown unit suffix);
 * `shouldDropVideo` — `shouldDropVideo` (age test against the expiry window);
 * `evaluateE`       — the per-item predicate inside `applyFilters`;
 * `applyFiltersE`   — `applyFilters` (a throw in the callback propagates);
 * `identify` / `fileIdOf` — the tracked-identifier template string;
 * `updateCore` / `updatePass` / `update` — the body of `update`, with the
   surrounding `try/catch` that maps any thrown error to an empty object.

Modelling conventions: JavaScript numbers are `Int` (with `Option Int`
where `NaN`/`undefined` are both falsy and behave identically at every
use site); instants are epoch milliseconds (`Int`); JavaScript objects
used as string-keyed maps are association lists with insertion-order
append and in-place overwrite (`objSet` / `objGet`); thrown exceptions
are `Except String`.  The compiled title regular expression and the two
genuinely external content fetchers (metadata JSON serialization and
transcript retrieval) are opaque functions, since the engine never
inspects their output.
-/

/-- A catalog item as consumed by the filter engine and the reconciler:
the fields of `Schema$Video` that the core reads (`id`,
`snippet.title`, `snippet.publishedAt` as an optional instant,
`contentDetails.duration`, `snippet.thumbnails.high.url`). -/
structure Video where
  id : String
  title : Option String := none
  publishedAt : Option Int := none
  duration : Option String := none
  thumbnailUrl : Option String := none
deriving DecidableEq, Repr

/-- Filter settings, mirroring the `Filters` interface.  The compiled
`RegExp` is abstracted to its test function. -/
structure Filters where
  titleIncludes : Option (String → Bool) := none
  durationMoreThan : Option Int := none
  durationLessThan : Option Int := none
  dropAfter : Option String := none
  startDate : Option Int := none

/-- Raw configuration, mirroring the `Config` interface.  String-valued
duration bounds are kept as strings (they are `parseInt`-ed by `init`);
the title pattern is already the compiled test function (regular
expression compilation is outside the core). -/
structure Config where
  channelId : Option String := none
  mode : Option String := none
  noDelete : Option Bool := none
  includeHeader : Option Bool := none
  titleIncludes : Option (String → Bool) := none
  durationMoreThan : Option String := none
  durationLessThan : Option String := none
  dropAfter : Option String := none
  startDate : Option Int := none

/-- The state `init` installs on the shop instance. -/
structure ShopState where
  channelId : String
  mode : String
  noDelete : Bool
  includeHeader : Bool
  filters : Filters

/-- The action vocabulary of a change-set entry
(`'add' | 'update' | 'delete'`). -/
inductive ActionKind where
  | add : ActionKind
  | update : ActionKind
  | delete : ActionKind
deriving DecidableEq, Repr

/-- One change-set entry: an action and an optional content payload. -/
structure Entry where
  action : ActionKind
  content : Option String
deriving DecidableEq, Repr

/-- JavaScript truthiness of an optional string (`undefined` and the
empty string are falsy). -/
def strTruthy : Option String → Bool
  | none => false
  | some s => !(s == "")

/-- Accumulated numeric value of a digit run. -/
def digitsToNat (l : List Char) : Nat :=
  l.foldl (fun acc c => acc * 10 + (c.toNat - 48)) 0

/-- JavaScript `parseInt(s, 10)`: an optional sign followed by a
maximal leading digit run; `none` models `NaN` (no digits). -/
def jsParseInt (s : String) : Option Int :=
  match s.data with
  | '-' :: rest =>
    let ds := rest.takeWhile (fun c => c.isDigit)
    if ds = [] then none else some (-(digitsToNat ds : Int))
  | '+' :: rest =>
    let ds := rest.takeWhile (fun c => c.isDigit)
    if ds = [] then none else some ((digitsToNat ds : Int))
  | l =>
    let ds := l.takeWhile (fun c => c.isDigit)
    if ds = [] then none else some ((digitsToNat ds : Int))

/-- Suffix of the input after the leftmost literal occurrence of
`"PT"`; `none` when the pattern `PT(\d+H)?(\d+M)?(\d+S)?` has no match
anywhere in the string. -/
def findPT : List Char → Option (List Char)
  | [] => none
  | 'P' :: 'T' :: rest => some rest
  | _ :: rest => findPT rest

/-- One optional group `(\d+X)?` of the duration pattern at the current
position: a nonempty maximal digit run must be followed by the marker
character, otherwise the group matches the empty string. -/
def parseGroup (marker : Char) (l : List Char) : Nat × List Char :=
  let ds := l.takeWhile (fun c => c.isDigit)
  let rest := l.drop ds.length
  match rest with
  | c :: rest2 => if ds ≠ [] ∧ c = marker then (digitsToNat ds, rest2) else (0, l)
  | [] => (0, l)

/-- `parseDuration`: matches `/PT(\d+H)?(\d+M)?(\d+S)?/` against the
input and returns `hours * 3600 + minutes * 60 + seconds`, each
component defaulting to zero; a string with no match yields zero. -/
def parseDuration (duration : String) : Nat :=
  match findPT duration.data with
  | none => 0
  | some rest =>
    let hm := parseGroup 'H' rest
    let mm := parseGroup 'M' hm.2
    let sm := parseGroup 'S' mm.2
    hm.1 * 3600 + mm.1 * 60 + sm.1

/-- `parseDropAfter`: the last character selects the unit, the rest is
`parseInt`-ed; unknown unit (including the empty string) throws
`Invalid dropAfter unit: <unit>`.  The inner `Option` propagates a
`NaN` magnitude (`NaN * k = NaN`). -/
def parseDropAfter (dropAfter : String) : Except String (Option Int) :=
  match dropAfter.data.getLast? with
  | none => .error "Invalid dropAfter unit: "
  | some u =>
    let value := jsParseInt (String.mk dropAfter.data.dropLast)
    if u = 'd' then .ok (value.map (fun v => v * (24 * 60 * 60 * 1000)))
    else if u = 'w' then .ok (value.map (fun v => v * (7 * 24 * 60 * 60 * 1000)))
    else if u = 'm' then .ok (value.map (fun v => v * (30 * 24 * 60 * 60 * 1000)))
    else if u = 'y' then .ok (value.map (fun v => v * (365 * 24 * 60 * 60 * 1000)))
    else .error ("Invalid dropAfter unit: " ++ String.mk [u])

/-- JavaScript `x > t` where `t` may be `NaN` (`none`): any comparison
with `NaN` is false. -/
def jsGtNaN (x : Int) (t : Option Int) : Bool :=
  match t with
  | none => false
  | some t => decide (x > t)

/-- `shouldDropVideo`: elapsed wall-clock milliseconds between now and
the publish instant, compared strictly against the parsed expiry
threshold.  The method reads `this.filters.dropAfter`; that field is
its parameter here. -/
def shouldDropVideo (dropAfter : Option String) (now publishedAt : Int) :
    Except String Bool :=
  if !(strTruthy dropAfter) then .ok false
  else
    match dropAfter with
    | none => .ok false
    | some da =>
      match parseDropAfter da with
      | .error e => .error e
      | .ok dropDuration => .ok (jsGtNaN (now - publishedAt) dropDuration)

/-- Guard of `applyFilters` line 161: a configured pattern, a truthy
title, and a failed test exclude the item. -/
def titleGuard (pat : Option (String → Bool)) (title : Option String) : Bool :=
  match pat, title with
  | some p, some t => !(t == "") && !(p t)
  | _, _ => false

/-- Guard of `applyFilters` line 162: a configured floor date and a
present publish instant strictly before it exclude the item. -/
def startGuard (startDate : Option Int) (publishedAt : Option Int) : Bool :=
  match startDate, publishedAt with
  | some sd, some pub => decide (pub < sd)
  | _, _ => false

/-- Guard of `applyFilters` line 163: a truthy (nonzero, non-`NaN`)
minimum bound and a smaller duration exclude the item. -/
def durMoreGuard (bound : Option Int) (d : Int) : Bool :=
  match bound with
  | some m => !(m == 0) && decide (d < m)
  | none => false

/-- Guard of `applyFilters` line 164: a truthy maximum bound and a
larger duration exclude the item. -/
def durLessGuard (bound : Option Int) (d : Int) : Bool :=
  match bound with
  | some m => !(m == 0) && decide (d > m)
  | none => false

/-- Parsed duration of an item (`contentDetails?.duration` truthy, else
zero). -/
def videoDuration (v : Video) : Int :=
  match v.duration with
  | some d => if d == "" then 0 else (parseDuration d : Int)
  | none => 0

/-- The per-item predicate inside `applyFilters`, with the two
evaluation orders of the source preserved; the expiry check is the only
one that can throw. -/
def evaluateE (f : Filters) (now : Int) (v : Video) : Except String Bool :=
  if titleGuard f.titleIncludes v.title then .ok false
  else if startGuard f.startDate v.publishedAt then .ok false
  else if durMoreGuard f.durationMoreThan (videoDuration v) then .ok false
  else if durLessGuard f.durationLessThan (videoDuration v) then .ok false
  else
    match v.publishedAt with
    | some pub =>
      if strTruthy f.dropAfter then
        match shouldDropVideo f.dropAfter now pub with
        | .error e => .error e
        | .ok b => .ok (!b)
      else .ok true
    | none => .ok true

/-- `applyFilters`: `Array.prototype.filter`, with a throw from the
callback propagating out of the whole call. -/
def applyFiltersE (f : Filters) (now : Int) : List Video → Except String (List Video)
  | [] => .ok []
  | v :: vs =>
    match evaluateE f now v with
    | .error e => .error e
    | .ok b =>
      match applyFiltersE f now vs with
      | .error e => .error e
      | .ok rest => .ok (if b then v :: rest else rest)

/-- The identity scheme of the spec:
`<source-kind>-<channelId>-<itemId>-<mode>`. -/
def identify (sourceKind channelId itemId mode : String) : String :=
  sourceKind ++ "-" ++ channelId ++ "-" ++ itemId ++ "-" ++ mode

/-- The tracked identifier derived in `update`:
``youtube-channel-${this.channelId}-${video.id}-${this.mode}``. -/
def fileIdOf (channelId mode : String) (v : Video) : String :=
  identify "youtube-channel" channelId v.id mode

/-- JavaScript object property write `obj[k] = v` on an association
list: overwrite in place when the key exists, append otherwise. -/
def objSet : List (String × Entry) → String → Entry → List (String × Entry)
  | [], k, v => [(k, v)]
  | p :: ps, k, v => if p.1 = k then (k, v) :: ps else p :: objSet ps k v

/-- JavaScript object property read `obj[k]`. -/
def objGet : List (String × Entry) → String → Option Entry
  | [], _ => none
  | p :: ps, k => if p.1 = k then some p.2 else objGet ps k

/-- The two external content fetchers the reconciler dispatches to and
whose output it never inspects: `getMetadataContent`
(`JSON.stringify(video.snippet)`) and `getTranscriptContent`. -/
structure Fetchers where
  metadata : Video → String
  transcript : Video → String

/-- `getVideoContent`. -/
def videoUrl (videoId : String) : String :=
  "https://www.youtube.com/watch?v=" ++ videoId

/-- `getThumbnailContent`: the high-resolution thumbnail URL or the
empty string (`|| ''`). -/
def getThumbnailContent (v : Video) : String :=
  match v.thumbnailUrl with
  | some u => u
  | none => ""

/-- The `switch (this.mode)` inside `update`'s add loop; an
unrecognized mode throws `Invalid mode: <mode>`. -/
def selectContent (fs : Fetchers) (mode : String) (v : Video) : Except String String :=
  if mode == "metadata" then .ok (fs.metadata v)
  else if mode == "thumbnail" then .ok (getThumbnailContent v)
  else if mode == "transcript" then .ok (fs.transcript v)
  else if mode == "video" then .ok (videoUrl v.id)
  else if mode == "audio" then .ok "Audio extraction not yet implemented"
  else .error ("Invalid mode: " ++ mode)

/-- The add loop of `update`: for each new video, fetch the
mode-selected content (a throw propagates) and write an `add` entry
under its derived identifier. -/
def addLoop (fetch : Video → Except String String) (fidOf : Video → String) :
    List Video → List (String × Entry) → Except String (List (String × Entry))
  | [], acc => .ok acc
  | v :: vs, acc =>
    match fetch v with
    | .error e => .error e
    | .ok c => addLoop fetch fidOf vs (objSet acc (fidOf v) ⟨ActionKind.add, some c⟩)

/-- The delete loop of `update`: for each prior-state key not among the
current identifiers, write a `delete` entry (no payload). -/
def deleteLoop (currentFileIds : List String) :
    List String → List (String × Entry) → List (String × Entry)
  | [], acc => acc
  | k :: ks, acc =>
    deleteLoop currentFileIds ks
      (if k ∈ currentFileIds then acc else objSet acc k ⟨ActionKind.delete, none⟩)

/-- The body of `update` after filtering: derive the current identifier
set, select the videos whose identifier is not a prior-state key, run
the add loop, and (unless the no-delete flag is set) the delete loop. -/
def updateCore (fetch : Video → Except String String) (channelId mode : String)
    (noDelete : Bool) (filteredVideos : List Video) (existingKeys : List String) :
    Except String (List (String × Entry)) :=
  let currentFileIds := filteredVideos.map (fileIdOf channelId mode)
  let newVideos := filteredVideos.filter
    (fun v => !(decide (fileIdOf channelId mode v ∈ existingKeys)))
  match addLoop fetch (fileIdOf channelId mode) newVideos [] with
  | .error e => .error e
  | .ok updates =>
    .ok (if noDelete then updates else deleteLoop currentFileIds existingKeys updates)

/-- The whole reconciliation pass inside `update`'s `try` block:
catalog listing, filtering, then `updateCore`; any thrown error
propagates. -/
def updatePass (fs : Fetchers) (st : ShopState) (now : Int)
    (listResult : Except String (List Video)) (existingKeys : List String) :
    Except String (List (String × Entry)) :=
  match listResult with
  | .error e => .error e
  | .ok videos =>
    match applyFiltersE st.filters now videos with
    | .error e => .error e
    | .ok filtered =>
      updateCore (selectContent fs st.mode) st.channelId st.mode st.noDelete
        filtered existingKeys

/-- `update` with its surrounding `try/catch`: an error anywhere in the
pass yields the empty object `{}`. -/
def update (fs : Fetchers) (st : ShopState) (now : Int)
    (listResult : Except String (List Video)) (existingKeys : List String) :
    List (String × Entry) :=
  match updatePass fs st now listResult existingKeys with
  | .ok cs => cs
  | .error _ => []

/-- `init`: requires a truthy API key and channel id, installs mode
defaults and the parsed filters.  Note that `dropAfter` is stored
verbatim — no validation of the expiry expression happens here. -/
def init (apiKey : Option String) (cfg : Config) : Except String ShopState :=
  if !(strTruthy apiKey) then .error "YouTube API key is required."
  else if !(strTruthy cfg.channelId) then .error "channelId is required in config."
  else .ok
    { channelId := cfg.channelId.getD ""
      mode :=
        match cfg.mode with
        | some m => if m == "" then "metadata" else m
        | none => "metadata"
      noDelete := cfg.noDelete == some true
      includeHeader := cfg.includeHeader != some false
      filters :=
        { titleIncludes := cfg.titleIncludes
          durationMoreThan :=
            match cfg.durationMoreThan with
            | some s => if s == "" then none else jsParseInt s
            | none => none
          durationLessThan :=
            match cfg.durationLessThan with
            | some s => if s == "" then none else jsParseInt s
            | none => none
          dropAfter := cfg.dropAfter
          startDate := cfg.startDate } }

/-- Applying a change set to the prior-state key set, as claim C3
describes the host doing it: keep the prior keys that are not deleted,
insert the added identifiers. -/
def applyChangeSet (cs : List (String × Entry)) (keys : List String) : List String :=
  keys.filter (fun k =>
    match objGet cs k with
    | some e => !(e.action == ActionKind.delete)
    | none => true)
  ++ (cs.filter (fun p => p.2.action == ActionKind.add)).map Prod.fst

/-- The exact-contents property claim C1 asserts of a change set, at
one identifier `fid`: one `add` entry carrying a payload produced by
the content fetcher for each derived identifier of a filtered item
that is not a prior-state key; when deleting is enabled, one
payload-free `delete` entry per prior key not among the derived
current identifiers; identifiers present in both prior state and
current set (or in neither) are absent; the `update` action never
occurs; with the no-delete flag set there are no `delete` entries and
prior keys are untouched. -/
def ChangeSetSpec (fetch : Video → Except String String) (ch mode : String)
    (nd : Bool) (vids : List Video) (keys : List String)
    (cs : List (String × Entry)) (fid : String) : Prop :=
  ((fid ∈ vids.map (fileIdOf ch mode) ∧ fid ∉ keys) →
    ∃ v, v ∈ vids ∧ fileIdOf ch mode v = fid
      ∧ ∃ c, fetch v = .ok c
      ∧ objGet cs fid = some ⟨ActionKind.add, some c⟩)
  ∧ (nd = false → fid ∈ keys → fid ∉ vids.map (fileIdOf ch mode) →
      objGet cs fid = some ⟨ActionKind.delete, none⟩)
  ∧ (fid ∈ vids.map (fileIdOf ch mode) → fid ∈ keys → objGet cs fid = none)
  ∧ (∀ e, objGet cs fid = some e → e.action ≠ ActionKind.update)
  ∧ (nd = true → ∀ e, objGet cs fid = some e → e.action ≠ ActionKind.delete)
  ∧ (nd = true → fid ∈ keys → objGet cs fid = none)
  ∧ (∀ e, objGet cs fid = some e →
      (fid ∈ vids.map (fileIdOf ch mode) ∧ fid ∉ keys)
      ∨ (nd = false ∧ fid ∈ keys ∧ fid ∉ vids.map (fileIdOf ch mode)))

theorem objGet_objSet (l : List (String × Entry)) (k k' : String) (v : Entry) :
    objGet (objSet l k v) k' = if k' = k then some v else objGet l k' := by
  induction l with
  | nil =>
    by_cases h : k' = k <;> simp [objSet, objGet, h]
    exact fun h2 => absurd h2.symm h
  | cons p ps ih =>
    by_cases hp : p.1 = k
    · by_cases h : k' = k
      · simp [objSet, objGet, hp, h]
      · simp [objSet, objGet, hp, h, Ne.symm h]
    · by_cases h : k' = k
      · subst h
        simp [objSet, objGet, hp, ih]
      · by_cases hpk : p.1 = k' <;> simp [objSet, objGet, hp, h, hpk, ih]

theorem objSet_map_fst (l : List (String × Entry)) (k : String) (v : Entry) :
    (objSet l k v).map Prod.fst =
      if k ∈ l.map Prod.fst then l.map Prod.fst else l.map Prod.fst ++ [k] := by
  induction l with
  | nil => simp [objSet]
  | cons p ps ih =>
    by_cases hp : p.1 = k
    · simp [objSet, hp]
    · by_cases hm : k ∈ ps.map Prod.fst <;>
        simp [objSet, hp, hm, ih, Ne.symm hp]

theorem objSet_nodup (l : List (String × Entry)) (k : String) (v : Entry)
    (h : (l.map Prod.fst).Nodup) : ((objSet l k v).map Prod.fst).Nodup := by
  rw [objSet_map_fst]
  by_cases hm : k ∈ l.map Prod.fst
  · simpa [hm] using h
  · simp only [hm, if_false]
    exact ((List.perm_append_singleton k _).nodup_iff).mpr (h.cons hm)

theorem objGet_eq_some_of_mem {l : List (String × Entry)} {k : String} {e : Entry}
    (hnd : (l.map Prod.fst).Nodup) (hm : (k, e) ∈ l) : objGet l k = some e := by
  induction l with
  | nil => cases hm
  | cons p ps ih =>
    rcases List.mem_cons.mp hm with h | h
    · subst h
      simp [objGet]
    · have hk : k ∈ ps.map Prod.fst := List.mem_map.mpr ⟨(k, e), h, rfl⟩
      have hp1 : p.1 ≠ k := by
        intro hc
        exact (List.nodup_cons.mp (by simpa using hnd)).1 (hc ▸ hk)
      simp only [objGet, hp1, if_false]
      exact ih (List.nodup_cons.mp (by simpa using hnd)).2 h

theorem mem_of_objGet_eq_some {l : List (String × Entry)} {k : String} {e : Entry}
    (h : objGet l k = some e) : (k, e) ∈ l := by
  induction l with
  | nil => simp [objGet] at h
  | cons p ps ih =>
    by_cases hp : p.1 = k
    · simp only [objGet, hp, if_true, Option.some.injEq] at h
      have hpe : p = (k, e) := by
        obtain ⟨a, b⟩ := p
        simp only at hp h
        rw [hp, h]
      rw [hpe]
      exact List.mem_cons_self _ _
    · simp only [objGet, hp, if_false] at h
      exact List.mem_cons_of_mem p (ih h)

theorem addLoop_frame (fetch : Video → Except String String) (fidOf : Video → String) :
    ∀ (vs : List Video) (acc cs : List (String × Entry)) (fid : String),
      addLoop fetch fidOf vs acc = .ok cs → fid ∉ vs.map fidOf →
      objGet cs fid = objGet acc fid := by
  intro vs
  induction vs with
  | nil => intro acc cs fid h _; cases h; rfl
  | cons v vs ih =>
    intro acc cs fid h hnm
    cases hf : fetch v with
    | error e => simp [addLoop, hf] at h
    | ok c =>
      simp only [addLoop, hf] at h
      have h1 : fid ∉ vs.map fidOf := fun hc => hnm (List.mem_cons_of_mem _ hc)
      have h2 : fid ≠ fidOf v := fun hc => hnm (by simp [hc])
      rw [ih _ _ _ h h1, objGet_objSet]
      simp [h2]

theorem addLoop_exists (fetch : Video → Except String String) (fidOf : Video → String) :
    ∀ (vs : List Video) (acc cs : List (String × Entry)) (fid : String),
      addLoop fetch fidOf vs acc = .ok cs → fid ∈ vs.map fidOf →
      ∃ v, v ∈ vs ∧ fidOf v = fid ∧
        ∃ c, fetch v = .ok c ∧ objGet cs fid = some ⟨ActionKind.add, some c⟩ := by
  intro vs
  induction vs with
  | nil => intro acc cs fid _ hm; simp at hm
  | cons v vs ih =>
    intro acc cs fid h hm
    cases hf : fetch v with
    | error e => simp [addLoop, hf] at h
    | ok c =>
      simp only [addLoop, hf] at h
      by_cases htl : fid ∈ vs.map fidOf
      · obtain ⟨w, hw, hfid, c2, hc2, hobj⟩ := ih _ _ _ h htl
        exact ⟨w, List.mem_cons_of_mem _ hw, hfid, c2, hc2, hobj⟩
      · have hhd : fidOf v = fid := by
          rcases List.mem_map.mp hm with ⟨w, hw, hfw⟩
          rcases List.mem_cons.mp hw with h1 | h1
          · rw [← h1]; exact hfw
          · exact absurd (List.mem_map.mpr ⟨w, h1, hfw⟩) htl
        refine ⟨v, List.mem_cons_self v vs, hhd, c, hf, ?_⟩
        rw [addLoop_frame fetch fidOf vs _ _ fid h htl, objGet_objSet]
        simp [hhd]

theorem addLoop_nodup (fetch : Video → Except String String) (fidOf : Video → String) :
    ∀ (vs : List Video) (acc cs : List (String × Entry)),
      addLoop fetch fidOf vs acc = .ok cs → (acc.map Prod.fst).Nodup →
      (cs.map Prod.fst).Nodup := by
  intro vs
  induction vs with
  | nil => intro acc cs h hnd; cases h; exact hnd
  | cons v vs ih =>
    intro acc cs h hnd
    cases hf : fetch v with
    | error e => simp [addLoop, hf] at h
    | ok c =>
      simp only [addLoop, hf] at h
      exact ih _ _ h (objSet_nodup _ _ _ hnd)

theorem deleteLoop_objGet (cur : List String) :
    ∀ (ks : List String) (acc : List (String × Entry)) (fid : String),
      objGet (deleteLoop cur ks acc) fid =
        if fid ∈ ks ∧ fid ∉ cur then some ⟨ActionKind.delete, none⟩
        else objGet acc fid := by
  intro ks
  induction ks with
  | nil => intro acc fid; simp [deleteLoop]
  | cons k ks ih =>
    intro acc fid
    simp only [deleteLoop]
    rw [ih]
    by_cases h1 : fid ∈ ks ∧ fid ∉ cur
    · simp [h1, List.mem_cons, h1.1, h1.2]
    · simp only [h1, if_false]
      by_cases h2 : fid = k
      · subst h2
        by_cases h3 : fid ∈ cur
        · simp [h3]
        · simp [h3, objGet_objSet]
      · have hcond : ¬((fid = k ∨ fid ∈ ks) ∧ fid ∉ cur) := by
          rintro ⟨h4 | h4, h5⟩
          · exact h2 h4
          · exact h1 ⟨h4, h5⟩
        by_cases h3 : k ∈ cur
        · simp only [h3, if_true]
          simp [List.mem_cons, hcond, h1]
        · simp only [h3, if_false]
          rw [objGet_objSet]
          simp [List.mem_cons, hcond, h1, h2]

theorem deleteLoop_skip (cur : List String) :
    ∀ (ks : List String) (acc : List (String × Entry)),
      (∀ k ∈ ks, k ∈ cur) → deleteLoop cur ks acc = acc := by
  intro ks
  induction ks with
  | nil => intro acc _; rfl
  | cons k ks ih =>
    intro acc hall
    simp only [deleteLoop, hall k (List.mem_cons_self k ks), if_true]
    exact ih acc (fun x hx => hall x (List.mem_cons_of_mem k hx))

theorem deleteLoop_nodup (cur : List String) :
    ∀ (ks : List String) (acc : List (String × Entry)),
      (acc.map Prod.fst).Nodup → ((deleteLoop cur ks acc).map Prod.fst).Nodup := by
  intro ks
  induction ks with
  | nil => intro acc h; exact h
  | cons k ks ih =>
    intro acc h
    simp only [deleteLoop]
    by_cases h3 : k ∈ cur
    · simpa [h3] using ih acc h
    · simpa [h3] using ih _ (objSet_nodup _ _ _ h)

theorem updateCore_destruct (fetch : Video → Except String String)
    (ch mode : String) (nd : Bool) (vids : List Video) (keys : List String)
    (cs : List (String × Entry))
    (h : updateCore fetch ch mode nd vids keys = .ok cs) :
    ∃ cs0, addLoop fetch (fileIdOf ch mode)
        (vids.filter (fun v => !(decide (fileIdOf ch mode v ∈ keys)))) [] = .ok cs0
      ∧ cs = if nd then cs0 else deleteLoop (vids.map (fileIdOf ch mode)) keys cs0 := by
  have heq : updateCore fetch ch mode nd vids keys =
      match addLoop fetch (fileIdOf ch mode)
          (vids.filter (fun v => !(decide (fileIdOf ch mode v ∈ keys)))) [] with
      | .error e => .error e
      | .ok updates =>
        .ok (if nd then updates
             else deleteLoop (vids.map (fileIdOf ch mode)) keys updates) := rfl
  rw [heq] at h
  cases ha : addLoop fetch (fileIdOf ch mode)
      (vids.filter (fun v => !(decide (fileIdOf ch mode v ∈ keys)))) [] with
  | error e => rw [ha] at h; cases h
  | ok cs0 =>
    rw [ha] at h
    simp only [Except.ok.injEq] at h
    exact ⟨cs0, rfl, h.symm⟩

theorem mem_newIds (ch mode : String) (vids : List Video) (keys : List String)
    (fid : String) :
    (fid ∈ (vids.filter (fun v => !(decide (fileIdOf ch mode v ∈ keys)))).map
        (fileIdOf ch mode))
      ↔ fid ∈ vids.map (fileIdOf ch mode) ∧ fid ∉ keys := by
  constructor
  · intro h
    rcases List.mem_map.mp h with ⟨v, hv, hfv⟩
    rcases List.mem_filter.mp hv with ⟨hv1, hv2⟩
    simp only [Bool.not_eq_true', decide_eq_false_iff_not] at hv2
    exact ⟨List.mem_map.mpr ⟨v, hv1, hfv⟩, hfv ▸ hv2⟩
  · intro ⟨h1, h2⟩
    rcases List.mem_map.mp h1 with ⟨v, hv, hfv⟩
    refine List.mem_map.mpr ⟨v, List.mem_filter.mpr ⟨hv, ?_⟩, hfv⟩
    simp only [Bool.not_eq_true', decide_eq_false_iff_not]
    exact hfv ▸ h2

theorem updateCore_nodup (fetch : Video → Except String String)
    (ch mode : String) (nd : Bool) (vids : List Video) (keys : List String)
    (cs : List (String × Entry))
    (h : updateCore fetch ch mode nd vids keys = .ok cs) :
    (cs.map Prod.fst).Nodup := by
  obtain ⟨cs0, ha, hcs⟩ := updateCore_destruct fetch ch mode nd vids keys cs h
  have h0 : (cs0.map Prod.fst).Nodup := addLoop_nodup _ _ _ _ _ ha (by simp)
  subst hcs
  cases nd with
  | true => simpa using h0
  | false => simpa using deleteLoop_nodup _ keys cs0 h0

theorem updateCore_entry (fetch : Video → Except String String)
    (ch mode : String) (nd : Bool) (vids : List Video) (keys : List String)
    (cs : List (String × Entry))
    (h : updateCore fetch ch mode nd vids keys = .ok cs)
    (fid : String) (e : Entry) (he : objGet cs fid = some e) :
    (nd = false ∧ fid ∈ keys ∧ fid ∉ vids.map (fileIdOf ch mode)
      ∧ e = ⟨ActionKind.delete, none⟩)
    ∨ (fid ∈ vids.map (fileIdOf ch mode) ∧ fid ∉ keys
      ∧ ∃ v, v ∈ vids ∧ fileIdOf ch mode v = fid
      ∧ ∃ c, fetch v = .ok c ∧ e = ⟨ActionKind.add, some c⟩) := by
  obtain ⟨cs0, ha, hcs⟩ := updateCore_destruct fetch ch mode nd vids keys cs h
  have hadd : objGet cs0 fid = some e →
      fid ∈ vids.map (fileIdOf ch mode) ∧ fid ∉ keys
      ∧ ∃ v, v ∈ vids ∧ fileIdOf ch mode v = fid
      ∧ ∃ c, fetch v = .ok c ∧ e = ⟨ActionKind.add, some c⟩ := by
    intro h0
    have hmem : fid ∈ (vids.filter
        (fun v => !(decide (fileIdOf ch mode v ∈ keys)))).map (fileIdOf ch mode) := by
      by_contra hne
      rw [addLoop_frame fetch (fileIdOf ch mode) _ _ _ _ ha hne] at h0
      cases h0
    obtain ⟨v, hv, hfv, c, hc, hobj⟩ := addLoop_exists fetch (fileIdOf ch mode) _ _ _ _ ha hmem
    rw [h0] at hobj
    obtain ⟨h1, h2⟩ := (mem_newIds ch mode vids keys fid).mp hmem
    exact ⟨h1, h2, v, (List.mem_filter.mp hv).1, hfv, c, hc, by simpa using hobj⟩
  subst hcs
  cases nd with
  | true => exact Or.inr (hadd he)
  | false =>
    simp only [Bool.false_eq_true, if_false] at he
    rw [deleteLoop_objGet] at he
    by_cases hcond : fid ∈ keys ∧ fid ∉ vids.map (fileIdOf ch mode)
    · left
      refine ⟨rfl, hcond.1, hcond.2, ?_⟩
      simp only [hcond, and_self, if_true] at he
      injection he with h3
      exact h3.symm
    · simp only [hcond, if_false] at he
      exact Or.inr (hadd he)

theorem updateCore_delete_complete (fetch : Video → Except String String)
    (ch mode : String) (vids : List Video) (keys : List String)
    (cs : List (String × Entry))
    (h : updateCore fetch ch mode false vids keys = .ok cs)
    (fid : String) (hk : fid ∈ keys) (hc : fid ∉ vids.map (fileIdOf ch mode)) :
    objGet cs fid = some ⟨ActionKind.delete, none⟩ := by
  obtain ⟨cs0, ha, hcs⟩ := updateCore_destruct fetch ch mode false vids keys cs h
  subst hcs
  simp only [Bool.false_eq_true, if_false]
  rw [deleteLoop_objGet]
  simp [hk, hc]

theorem updateCore_add_complete (fetch : Video → Except String String)
    (ch mode : String) (nd : Bool) (vids : List Video) (keys : List String)
    (cs : List (String × Entry))
    (h : updateCore fetch ch mode nd vids keys = .ok cs)
    (fid : String) (hc : fid ∈ vids.map (fileIdOf ch mode)) (hk : fid ∉ keys) :
    ∃ v, v ∈ vids ∧ fileIdOf ch mode v = fid
      ∧ ∃ c, fetch v = .ok c ∧ objGet cs fid = some ⟨ActionKind.add, some c⟩ := by
  obtain ⟨cs0, ha, hcs⟩ := updateCore_destruct fetch ch mode nd vids keys cs h
  have hmem : fid ∈ (vids.filter
      (fun v => !(decide (fileIdOf ch mode v ∈ keys)))).map (fileIdOf ch mode) :=
    (mem_newIds ch mode vids keys fid).mpr ⟨hc, hk⟩
  obtain ⟨v, hv, hfv, c, hcfetch, hobj⟩ :=
    addLoop_exists fetch (fileIdOf ch mode) _ _ _ _ ha hmem
  refine ⟨v, (List.mem_filter.mp hv).1, hfv, c, hcfetch, ?_⟩
  subst hcs
  cases nd with
  | true => simpa using hobj
  | false =>
    simp only [Bool.false_eq_true, if_false]
    rw [deleteLoop_objGet]
    simp only [hk, false_and, if_false]
    exact hobj

theorem updateCore_none (fetch : Video → Except String String)
    (ch mode : String) (nd : Bool) (vids : List Video) (keys : List String)
    (cs : List (String × Entry))
    (h : updateCore fetch ch mode nd vids keys = .ok cs)
    (fid : String) (hc : fid ∈ vids.map (fileIdOf ch mode)) (hk : fid ∈ keys) :
    objGet cs fid = none := by
  obtain ⟨cs0, ha, hcs⟩ := updateCore_destruct fetch ch mode nd vids keys cs h
  have hnm : fid ∉ (vids.filter
      (fun v => !(decide (fileIdOf ch mode v ∈ keys)))).map (fileIdOf ch mode) := by
    intro hmem
    exact ((mem_newIds ch mode vids keys fid).mp hmem).2 hk
  have h0 : objGet cs0 fid = none := by
    rw [addLoop_frame fetch (fileIdOf ch mode) _ _ _ _ ha hnm]; rfl
  subst hcs
  cases nd with
  | true => simpa using h0
  | false =>
    simp only [Bool.false_eq_true, if_false]
    rw [deleteLoop_objGet]
    simp only [hc, not_true, and_false, if_false]
    exact h0

theorem updateCore_noDelete_keys (fetch : Video → Except String String)
    (ch mode : String) (vids : List Video) (keys : List String)
    (cs : List (String × Entry))
    (h : updateCore fetch ch mode true vids keys = .ok cs)
    (fid : String) (hk : fid ∈ keys) :
    objGet cs fid = none := by
  obtain ⟨cs0, ha, hcs⟩ := updateCore_destruct fetch ch mode true vids keys cs h
  have hnm : fid ∉ (vids.filter
      (fun v => !(decide (fileIdOf ch mode v ∈ keys)))).map (fileIdOf ch mode) := by
    intro hmem
    exact ((mem_newIds ch mode vids keys fid).mp hmem).2 hk
  have h0 : objGet cs0 fid = none := by
    rw [addLoop_frame fetch (fileIdOf ch mode) _ _ _ _ ha hnm]; rfl
  subst hcs
  simpa using h0

/-- C7: the duration parser maps `"PT1H2M3S"` to 3723 and `"PT5M"` to
300 seconds, with missing components defaulting to zero (`"PT"` gives
0) and malformed input (`"garbage"`) yielding 0 rather than failing. -/
theorem parseDuration_testable_values :
    parseDuration "PT1H2M3S" = 3723 ∧ parseDuration "PT5M" = 300
    ∧ parseDuration "PT" = 0 ∧ parseDuration "garbage" = 0 :=
  ⟨rfl, rfl, rfl, rfl⟩

/-- C8: if any step of the reconciliation pass fails, `update` yields
the empty change set rather than a partial one — the `catch` block
returns `{}` for every error and every prior state. -/
theorem update_empty_on_error (fs : Fetchers) (st : ShopState) (now : Int)
    (listResult : Except String (List Video)) (keys : List String) (e : String)
    (h : updatePass fs st now listResult keys = .error e) :
    update fs st now listResult keys = [] := by
  unfold update
  rw [h]

/-- Witness for C8: a failing catalog listing produces the empty change
set. -/
theorem update_empty_on_error_witness :
    update ⟨fun v => v.id, fun v => v.id⟩ ⟨"chan", "metadata", false, true, {}⟩ 0
      (.error "listing failed") ["k"] = [] :=
  update_empty_on_error ⟨fun v => v.id, fun v => v.id⟩
    ⟨"chan", "metadata", false, true, {}⟩ 0 (.error "listing failed") ["k"]
    "listing failed" rfl

/-- C10: a duration bound configured as 0 is falsy at its use site in
`applyFilters`, so it behaves exactly like an absent bound on either
axis. -/
theorem evaluateE_zero_bound_as_absent (f : Filters) (now : Int) (v : Video) :
    evaluateE { f with durationLessThan := some 0 } now v
      = evaluateE { f with durationLessThan := none } now v
    ∧ evaluateE { f with durationMoreThan := some 0 } now v
      = evaluateE { f with durationMoreThan := none } now v := by
  obtain ⟨ti, dm, dl, da, sd⟩ := f
  constructor
  · unfold evaluateE
    norm_num [durLessGuard]
  · unfold evaluateE
    norm_num [durMoreGuard]

/-- C9: when both duration bounds are configured positive with the
minimum above the maximum, every item is excluded: any duration is
either below the minimum or above the maximum, each a disqualifying
check that fires before the expiry check can throw. -/
theorem evaluateE_min_gt_max_excludes (f : Filters) (now : Int) (v : Video)
    (mn mx : Int) (hmin : f.durationMoreThan = some mn)
    (hmax : f.durationLessThan = some mx) (hpos : 0 < mx) (hlt : mx < mn) :
    evaluateE f now v = .ok false := by
  have hmn0 : (mn == 0) = false := beq_eq_false_iff_ne.mpr (by omega)
  have hmx0 : (mx == 0) = false := beq_eq_false_iff_ne.mpr (by omega)
  unfold evaluateE
  by_cases h1 : titleGuard f.titleIncludes v.title
  · simp [h1]
  · by_cases h2 : startGuard f.startDate v.publishedAt
    · simp [h1, h2]
    · by_cases h3 : videoDuration v < mn
      · simp [h1, h2, durMoreGuard, hmin, hmn0, h3]
      · have h4 : videoDuration v > mx := by omega
        simp [h1, h2, durMoreGuard, durLessGuard, hmin, hmax, hmn0, hmx0, h3, h4]

/-- Witness for C9: with minimum 10 and maximum 5, an arbitrary item is
excluded. -/
theorem evaluateE_min_gt_max_excludes_witness :
    evaluateE { durationMoreThan := some 10, durationLessThan := some 5 } 0
      { id := "v1" } = .ok false :=
  evaluateE_min_gt_max_excludes
    { durationMoreThan := some 10, durationLessThan := some 5 } 0 { id := "v1" }
    10 5 rfl rfl (by decide) (by decide)

/-- Counterexample to C4: an item with an absent title and a configured
title pattern is NOT excluded — the guard
`this.filters.titleIncludes && title && !test(title)` is skipped when
`title` is falsy, so the item passes (claim C4 demands `false` here). -/
theorem evaluateE_missing_title_passes :
    evaluateE { titleIncludes := some (fun t => t == "tutorial") } 0
      { id := "v1" } = .ok true := rfl

/-- C4 (amended): an item whose title is absent (or empty, hence falsy)
is never constrained by the title predicate — evaluation proceeds
exactly as if no title pattern were configured; with no configured
pattern the absence of a title likewise imposes no constraint. -/
theorem evaluateE_missing_title_no_constraint (f : Filters) (now : Int) (v : Video)
    (h : strTruthy v.title = false) :
    evaluateE f now v = evaluateE { f with titleIncludes := none } now v := by
  obtain ⟨ti, dm, dl, da, sd⟩ := f
  have hguard : titleGuard ti v.title = false := by
    cases hp : ti with
    | none => rfl
    | some p =>
      cases ht : v.title with
      | none => rfl
      | some t =>
        rw [ht] at h
        simp only [strTruthy, Bool.not_eq_true', Bool.not_eq_false] at h
        simp [titleGuard, h]
  have hnone : titleGuard none v.title = false := by
    cases v.title <;> rfl
  simp [evaluateE, hguard, hnone, shouldDropVideo]

/-- Witness for C4 (amended): a concrete pattern-configured filter and
an item without a title evaluate as if the pattern were absent. -/
theorem evaluateE_missing_title_no_constraint_witness :
    evaluateE { titleIncludes := some (fun t => t == "x") } 0 { id := "v1" }
      = evaluateE
        { ({ titleIncludes := some (fun t => t == "x") } : Filters) with
          titleIncludes := none } 0 { id := "v1" } :=
  evaluateE_missing_title_no_constraint
    { titleIncludes := some (fun t => t == "x") } 0 { id := "v1" } rfl

/-- Counterexample to C5: with the invalid expiry expression `"5x"`,
configuration raises no error at all — `init` succeeds and stores the
expression verbatim — while the invalid-unit error is raised later,
per item, inside the filter evaluation (C5 claims it is raised once at
configuration time). -/
theorem init_accepts_invalid_dropAfter_unit :
    init (some "key") { channelId := some "chan", dropAfter := some "5x" }
      = .ok { channelId := "chan", mode := "metadata", noDelete := false,
              includeHeader := true, filters := { dropAfter := some "5x" } }
    ∧ evaluateE { dropAfter := some "5x" } 0 { id := "v1", publishedAt := some 0 }
      = .error "Invalid dropAfter unit: x" :=
  ⟨rfl, rfl⟩

/-- C5 (amended): an expiry expression ending in an unrecognized unit
suffix passes configuration untouched (`init` succeeds); the error
identifying the invalid unit is thrown by `parseDropAfter` at first
per-item use during filtering, and `update` catches it and yields an
empty change set instead of aborting with a fatal configuration
error. -/
theorem invalid_dropAfter_unit_errors_at_first_use (da : String) (u : Char)
    (hu : da.data.getLast? = some u)
    (hnotunit : u ≠ 'd' ∧ u ≠ 'w' ∧ u ≠ 'm' ∧ u ≠ 'y')
    (apiKey ch : String) (hkey : apiKey ≠ "") (hch : ch ≠ "")
    (fs : Fetchers) (now pub : Int) (vid : String) (keys : List String) :
    parseDropAfter da = .error ("Invalid dropAfter unit: " ++ String.mk [u])
    ∧ init (some apiKey) { channelId := some ch, dropAfter := some da }
      = .ok { channelId := ch, mode := "metadata", noDelete := false,
              includeHeader := true, filters := { dropAfter := some da } }
    ∧ update fs
        { channelId := ch, mode := "metadata", noDelete := false,
          includeHeader := true, filters := { dropAfter := some da } } now
        (.ok [{ id := vid, publishedAt := some pub }]) keys = [] := by
  obtain ⟨h1, h2, h3, h4⟩ := hnotunit
  have hparse : parseDropAfter da
      = .error ("Invalid dropAfter unit: " ++ String.mk [u]) := by
    unfold parseDropAfter
    rw [hu]
    simp [h1, h2, h3, h4]
  have hne : da ≠ "" := by
    intro hda
    rw [hda, show ("" : String).data = [] from rfl, List.getLast?_nil] at hu
    cases hu
  have hinit : init (some apiKey) { channelId := some ch, dropAfter := some da }
      = .ok { channelId := ch, mode := "metadata", noDelete := false,
              includeHeader := true, filters := { dropAfter := some da } } := by
    unfold init
    simp [strTruthy, hkey, hch]
  have heval : evaluateE { dropAfter := some da } now
      { id := vid, publishedAt := some pub }
      = .error ("Invalid dropAfter unit: " ++ String.mk [u]) := by
    unfold evaluateE
    simp [titleGuard, startGuard, durMoreGuard, durLessGuard, strTruthy, hne,
      shouldDropVideo, hparse]
  refine ⟨hparse, hinit, ?_⟩
  unfold update updatePass
  simp [applyFiltersE, heval]

theorem push_data (s : String) (c : Char) : (s.push c).data = s.data ++ [c] := by
  cases s
  rfl

theorem mk_data (s : String) : String.mk s.data = s := by
  cases s
  rfl

theorem push_ne_empty (s : String) (c : Char) : s.push c ≠ "" := by
  intro h
  have hd := push_data s c
  rw [h, show ("" : String).data = [] from rfl] at hd
  simp at hd

/-- C6: the age evaluator reports expiry iff the elapsed milliseconds
strictly exceed the parsed magnitude times the fixed unit constant
(d = 86400000 ms, w = 7·86400000, m = 30·86400000, y = 365·86400000,
with no calendar-aware handling); in particular at 400 days of age,
expiry `"1y"` is expired and `"2y"` is not. -/
theorem shouldDropVideo_threshold_spec (now pub v : Int) (s : String)
    (hv : jsParseInt s = some v) :
    shouldDropVideo (some (s.push 'd')) now pub
      = .ok (decide (now - pub > v * 86400000))
    ∧ shouldDropVideo (some (s.push 'w')) now pub
      = .ok (decide (now - pub > v * (7 * 86400000)))
    ∧ shouldDropVideo (some (s.push 'm')) now pub
      = .ok (decide (now - pub > v * (30 * 86400000)))
    ∧ shouldDropVideo (some (s.push 'y')) now pub
      = .ok (decide (now - pub > v * (365 * 86400000)))
    ∧ shouldDropVideo (some "1y") now (now - 400 * 86400000) = .ok true
    ∧ shouldDropVideo (some "2y") now (now - 400 * 86400000) = .ok false := by
  have hsd : ∀ (u : Char) (k : Int),
      parseDropAfter (s.push u) = .ok (some (v * k)) →
      shouldDropVideo (some (s.push u)) now pub
        = .ok (decide (now - pub > v * k)) := by
    intro u k hp
    have hbe : (s.push u == "") = false :=
      beq_eq_false_iff_ne.mpr (push_ne_empty s u)
    unfold shouldDropVideo
    simp [strTruthy, hbe, hp, jsGtNaN]
  have hd : parseDropAfter (s.push 'd') = .ok (some (v * 86400000)) := by
    unfold parseDropAfter
    simp only [push_data, List.getLast?_concat, List.dropLast_concat, mk_data, hv]
    norm_num
  have hw : parseDropAfter (s.push 'w') = .ok (some (v * (7 * 86400000))) := by
    unfold parseDropAfter
    simp only [push_data, List.getLast?_concat, List.dropLast_concat, mk_data, hv]
    rw [if_neg (by decide)]
    norm_num
  have hm : parseDropAfter (s.push 'm') = .ok (some (v * (30 * 86400000))) := by
    unfold parseDropAfter
    simp only [push_data, List.getLast?_concat, List.dropLast_concat, mk_data, hv]
    rw [if_neg (by decide), if_neg (by decide)]
    norm_num
  have hy : parseDropAfter (s.push 'y') = .ok (some (v * (365 * 86400000))) := by
    unfold parseDropAfter
    simp only [push_data, List.getLast?_concat, List.dropLast_concat, mk_data, hv]
    rw [if_neg (by decide), if_neg (by decide), if_neg (by decide)]
    norm_num
  have h1yp : parseDropAfter "1y" = .ok (some 31536000000) := by rfl
  have h2yp : parseDropAfter "2y" = .ok (some 63072000000) := by rfl
  refine ⟨hsd 'd' 86400000 hd, hsd 'w' (7 * 86400000) hw,
    hsd 'm' (30 * 86400000) hm, hsd 'y' (365 * 86400000) hy, ?_, ?_⟩
  · unfold shouldDropVideo
    simp [strTruthy, h1yp, jsGtNaN]
  · unfold shouldDropVideo
    simp [strTruthy, h2yp, jsGtNaN]

/-- Witness for C6: concrete evaluation with magnitude 400 parsed from
`"400"` and a 400-day-old item. -/
theorem shouldDropVideo_threshold_spec_witness :
    shouldDropVideo (some ("400".push 'd')) 0 0
      = .ok (decide ((0 : Int) - 0 > 400 * 86400000))
    ∧ shouldDropVideo (some ("400".push 'w')) 0 0
      = .ok (decide ((0 : Int) - 0 > 400 * (7 * 86400000)))
    ∧ shouldDropVideo (some ("400".push 'm')) 0 0
      = .ok (decide ((0 : Int) - 0 > 400 * (30 * 86400000)))
    ∧ shouldDropVideo (some ("400".push 'y')) 0 0
      = .ok (decide ((0 : Int) - 0 > 400 * (365 * 86400000)))
    ∧ shouldDropVideo (some "1y") 0 (0 - 400 * 86400000) = .ok true
    ∧ shouldDropVideo (some "2y") 0 (0 - 400 * 86400000) = .ok false :=
  shouldDropVideo_threshold_spec 0 0 400 "400" rfl

/-- Witness for C5 (amended): concrete run with expiry expression
`"5x"`. -/
theorem invalid_dropAfter_unit_errors_at_first_use_witness :
    parseDropAfter "5x" = .error ("Invalid dropAfter unit: " ++ String.mk ['x'])
    ∧ init (some "key") { channelId := some "chan", dropAfter := some "5x" }
      = .ok { channelId := "chan", mode := "metadata", noDelete := false,
              includeHeader := true, filters := { dropAfter := some "5x" } }
    ∧ update ⟨fun v => v.id, fun v => v.id⟩
        { channelId := "chan", mode := "metadata", noDelete := false,
          includeHeader := true, filters := { dropAfter := some "5x" } } 0
        (.ok [{ id := "v1", publishedAt := some 0 }]) ["k"] = [] :=
  invalid_dropAfter_unit_errors_at_first_use "5x" 'x' rfl
    (by decide) "key" "chan" (by decide) (by decide)
    ⟨fun v => v.id, fun v => v.id⟩ 0 0 "v1" ["k"]

theorem splitAtLastSep : ∀ (a₁ b₁ a₂ b₂ : List Char),
    a₁ ++ '-' :: b₁ = a₂ ++ '-' :: b₂ → '-' ∉ b₁ → '-' ∉ b₂ →
    a₁ = a₂ ∧ b₁ = b₂ := by
  intro a₁
  induction a₁ with
  | nil =>
    intro b₁ a₂ b₂ h hb₁ hb₂
    cases a₂ with
    | nil =>
      simp only [List.nil_append, List.cons.injEq] at h
      exact ⟨rfl, h.2⟩
    | cons x a₂ =>
      simp only [List.nil_append, List.cons_append, List.cons.injEq] at h
      exact absurd (h.2 ▸ List.mem_append_right a₂ (List.mem_cons_self _ _)) hb₁
  | cons x a₁ ih =>
    intro b₁ a₂ b₂ h hb₁ hb₂
    cases a₂ with
    | nil =>
      simp only [List.cons_append, List.nil_append, List.cons.injEq] at h
      exact absurd (h.2 ▸ List.mem_append_right a₁ (List.mem_cons_self _ _)) hb₂
    | cons y a₂ =>
      simp only [List.cons_append, List.cons.injEq] at h
      obtain ⟨h1, h2⟩ := ih b₁ a₂ b₂ h.2 hb₁ hb₂
      exact ⟨by rw [h.1, h1], h2⟩

theorem string_data_eq {s t : String} (h : s.data = t.data) : s = t := by
  cases s
  cases t
  exact congrArg String.mk h

/-- Counterexample to C2: the identity scheme is not injective over
arbitrary strings — a hyphen inside the channel id shifts a segment
into the item id, producing the same tracked identifier from two
different tuples. -/
theorem identify_not_injective :
    (("youtube-channel", "a-b", "c", "metadata")
        : String × String × String × String)
      ≠ ("youtube-channel", "a", "b-c", "metadata")
    ∧ identify "youtube-channel" "a-b" "c" "metadata"
      = identify "youtube-channel" "a" "b-c" "metadata" :=
  ⟨by decide, rfl⟩

/-- C2 (amended): the identity scheme is injective on every tuple whose
channel id, item id and mode contain no separator hyphen (the mode
literals and real ids used by the code are hyphen-free; the source
kind may contain hyphens, as `youtube-channel` itself does); moreover,
unconditionally, two modes for the same item collide only if equal,
and two channel ids for the same item and mode collide only if
equal. -/
theorem identify_injective_hyphen_free :
    (∀ k₁ c₁ i₁ m₁ k₂ c₂ i₂ m₂ : String,
      '-' ∉ c₁.data → '-' ∉ i₁.data → '-' ∉ m₁.data →
      '-' ∉ c₂.data → '-' ∉ i₂.data → '-' ∉ m₂.data →
      identify k₁ c₁ i₁ m₁ = identify k₂ c₂ i₂ m₂ →
      k₁ = k₂ ∧ c₁ = c₂ ∧ i₁ = i₂ ∧ m₁ = m₂)
    ∧ (∀ k c i m₁ m₂ : String,
      identify k c i m₁ = identify k c i m₂ → m₁ = m₂)
    ∧ (∀ k c₁ c₂ i m : String,
      identify k c₁ i m = identify k c₂ i m → c₁ = c₂) := by
  have hdata : ∀ k c i m : String, (identify k c i m).data
      = ((k.data ++ '-' :: c.data) ++ '-' :: i.data) ++ '-' :: m.data := by
    intro k c i m
    simp [identify, String.data_append, List.append_assoc]
  refine ⟨?_, ?_, ?_⟩
  · intro k₁ c₁ i₁ m₁ k₂ c₂ i₂ m₂ hc₁ hi₁ hm₁ hc₂ hi₂ hm₂ h
    have hd : ((k₁.data ++ '-' :: c₁.data) ++ '-' :: i₁.data) ++ '-' :: m₁.data
        = ((k₂.data ++ '-' :: c₂.data) ++ '-' :: i₂.data) ++ '-' :: m₂.data := by
      rw [← hdata, ← hdata, h]
    obtain ⟨hd1, hdm⟩ := splitAtLastSep _ _ _ _ hd hm₁ hm₂
    obtain ⟨hd2, hdi⟩ := splitAtLastSep _ _ _ _ hd1 hi₁ hi₂
    obtain ⟨hd3, hdc⟩ := splitAtLastSep _ _ _ _ hd2 hc₁ hc₂
    exact ⟨string_data_eq hd3, string_data_eq hdc,
      string_data_eq hdi, string_data_eq hdm⟩
  · intro k c i m₁ m₂ h
    have hd : ((k.data ++ '-' :: c.data) ++ '-' :: i.data) ++ '-' :: m₁.data
        = ((k.data ++ '-' :: c.data) ++ '-' :: i.data) ++ '-' :: m₂.data := by
      rw [← hdata, ← hdata, h]
    have := List.append_cancel_left hd
    exact string_data_eq (by injection this)
  · intro k c₁ c₂ i m h
    have hd : ((k.data ++ '-' :: c₁.data) ++ '-' :: i.data) ++ '-' :: m.data
        = ((k.data ++ '-' :: c₂.data) ++ '-' :: i.data) ++ '-' :: m.data := by
      rw [← hdata, ← hdata, h]
    have h1 := List.append_cancel_right hd
    have h2 := List.append_cancel_right h1
    have h3 : k.data ++ '-' :: c₁.data = k.data ++ '-' :: c₂.data := h2
    have h4 := List.append_cancel_left h3
    exact string_data_eq (by injection h4)

/-- Witness for C2 (amended): applying the injectivity statement at a
concrete hyphen-free tuple. -/
theorem identify_injective_hyphen_free_witness :
    ("yc" : String) = "yc" ∧ ("c1" : String) = "c1"
    ∧ ("i1" : String) = "i1" ∧ ("m1" : String) = "m1" :=
  identify_injective_hyphen_free.1 "yc" "c1" "i1" "m1" "yc" "c1" "i1" "m1"
    (by decide) (by decide) (by decide) (by decide) (by decide) (by decide) rfl

/-- C1: a successful reconciliation pass produces a change set with
exactly the entries `ChangeSetSpec` describes — mode-fetched `add`
entries for new identifiers, payload-free `delete` entries for stale
prior keys unless the no-delete flag suppresses them, nothing for
identifiers in both sets, and never the `update` action. -/
theorem update_changeset_exact (fs : Fetchers) (ch mode : String) (nd : Bool)
    (vids : List Video) (keys : List String) (cs : List (String × Entry))
    (fid : String)
    (h : updateCore (selectContent fs mode) ch mode nd vids keys = .ok cs) :
    ChangeSetSpec (selectContent fs mode) ch mode nd vids keys cs fid := by
  unfold ChangeSetSpec
  refine ⟨?_, ?_, ?_, ?_, ?_, ?_, ?_⟩
  · intro ⟨h1, h2⟩
    exact updateCore_add_complete _ _ _ _ _ _ _ h fid h1 h2
  · intro hnd hk hc
    subst hnd
    exact updateCore_delete_complete _ _ _ _ _ _ h fid hk hc
  · intro h1 h2
    exact updateCore_none _ _ _ _ _ _ _ h fid h1 h2
  · intro e he
    rcases updateCore_entry _ _ _ _ _ _ _ h fid e he with
      ⟨_, _, _, hdel⟩ | ⟨_, _, _, _, _, _, _, hadd⟩
    · rw [hdel]
      intro hc
      cases hc
    · rw [hadd]
      intro hc
      cases hc
  · intro hnd e he
    rcases updateCore_entry _ _ _ _ _ _ _ h fid e he with
      ⟨hfalse, _⟩ | ⟨_, _, _, _, _, _, _, hadd⟩
    · rw [hnd] at hfalse
      cases hfalse
    · rw [hadd]
      intro hc
      cases hc
  · intro hnd hk
    subst hnd
    exact updateCore_noDelete_keys _ _ _ _ _ _ h fid hk
  · intro e he
    rcases updateCore_entry _ _ _ _ _ _ _ h fid e he with
      ⟨h1, h2, h3, _⟩ | ⟨h1, h2, _⟩
    · exact Or.inr ⟨h1, h2, h3⟩
    · exact Or.inl ⟨h1, h2⟩

/-- Witness for C1: a pass over one new video (mode `video`) with one
stale prior key, checked at the added identifier. -/
theorem update_changeset_exact_witness :
    ChangeSetSpec (selectContent ⟨fun v => v.id, fun v => v.id⟩ "video")
      "c" "video" false [{ id := "a" }] ["k"]
      [("youtube-channel-c-a-video",
        ⟨ActionKind.add, some "https://www.youtube.com/watch?v=a"⟩),
       ("k", ⟨ActionKind.delete, none⟩)]
      "youtube-channel-c-a-video" :=
  update_changeset_exact ⟨fun v => v.id, fun v => v.id⟩ "c" "video" false
    [{ id := "a" }] ["k"]
    [("youtube-channel-c-a-video",
      ⟨ActionKind.add, some "https://www.youtube.com/watch?v=a"⟩),
     ("k", ⟨ActionKind.delete, none⟩)]
    "youtube-channel-c-a-video" rfl

/-- C3: reconciliation is deterministic — the pass is a pure function,
so a second run on identical inputs returns the identical change set —
and reaches a fixed point: applying the produced change set to the
prior-state keys (keeping undeleted keys, inserting added identifiers)
and reconciling again against the same filtered set yields the empty
change set. -/
theorem update_idempotent_fixed_point (fs : Fetchers) (ch mode : String)
    (nd : Bool) (vids : List Video) (keys : List String)
    (cs : List (String × Entry))
    (h : updateCore (selectContent fs mode) ch mode nd vids keys = .ok cs) :
    updateCore (selectContent fs mode) ch mode nd vids keys = .ok cs
    ∧ updateCore (selectContent fs mode) ch mode nd vids
        (applyChangeSet cs keys) = .ok [] := by
  refine ⟨h, ?_⟩
  have hnodup := updateCore_nodup _ _ _ _ _ _ _ h
  have hmem2 : ∀ v ∈ vids, fileIdOf ch mode v ∈ applyChangeSet cs keys := by
    intro v hv
    have hcur : fileIdOf ch mode v ∈ vids.map (fileIdOf ch mode) :=
      List.mem_map.mpr ⟨v, hv, rfl⟩
    by_cases hk : fileIdOf ch mode v ∈ keys
    · have hobj : objGet cs (fileIdOf ch mode v) = none :=
        updateCore_none _ _ _ _ _ _ _ h _ hcur hk
      unfold applyChangeSet
      apply List.mem_append_left
      apply List.mem_filter.mpr
      refine ⟨hk, ?_⟩
      rw [hobj]
    · obtain ⟨w, hw, hfw, c, hc, hobj⟩ :=
        updateCore_add_complete _ _ _ _ _ _ _ h _ hcur hk
      unfold applyChangeSet
      apply List.mem_append_right
      apply List.mem_map.mpr
      refine ⟨(fileIdOf ch mode v, ⟨ActionKind.add, some c⟩), ?_, rfl⟩
      apply List.mem_filter.mpr
      exact ⟨mem_of_objGet_eq_some hobj, rfl⟩
  have hfilter2 : vids.filter
      (fun v => !(decide (fileIdOf ch mode v ∈ applyChangeSet cs keys))) = [] := by
    rw [List.filter_eq_nil_iff]
    intro v hv
    simp [hmem2 v hv]
  have heq2 : updateCore (selectContent fs mode) ch mode nd vids
      (applyChangeSet cs keys) =
      match addLoop (selectContent fs mode) (fileIdOf ch mode)
          (vids.filter (fun v =>
            !(decide (fileIdOf ch mode v ∈ applyChangeSet cs keys)))) [] with
      | .error e => .error e
      | .ok updates =>
        .ok (if nd then updates
             else deleteLoop (vids.map (fileIdOf ch mode))
               (applyChangeSet cs keys) updates) := rfl
  rw [heq2, hfilter2]
  show (.ok (if nd then ([] : List (String × Entry))
      else deleteLoop (vids.map (fileIdOf ch mode)) (applyChangeSet cs keys) [])
    : Except String _) = .ok []
  cases nd with
  | true => rfl
  | false =>
    have hsub : ∀ k ∈ applyChangeSet cs keys, k ∈ vids.map (fileIdOf ch mode) := by
      intro k hk2
      unfold applyChangeSet at hk2
      rcases List.mem_append.mp hk2 with hk2 | hk2
      · obtain ⟨hk, hpred⟩ := List.mem_filter.mp hk2
        by_contra hnc
        have hdel : objGet cs k = some ⟨ActionKind.delete, none⟩ :=
          updateCore_delete_complete _ _ _ _ _ _ h k hk hnc
        rw [hdel] at hpred
        simp at hpred
      · obtain ⟨⟨k2, e⟩, hmem, hfst⟩ := List.mem_map.mp hk2
        obtain ⟨hmemcs, hact⟩ := List.mem_filter.mp hmem
        have hobj : objGet cs k2 = some e := objGet_eq_some_of_mem hnodup hmemcs
        have hk2eq : k2 = k := hfst
        subst hk2eq
        simp only [beq_iff_eq] at hact
        rcases updateCore_entry _ _ _ _ _ _ _ h k2 e hobj with
          ⟨_, _, _, hdel⟩ | ⟨hcur, _, _⟩
        · rw [hdel] at hact
          cases hact
        · exact hcur
    rw [deleteLoop_skip _ _ _ hsub]
    rfl

/-- Witness for C3: the concrete pass of the C1 scenario reaches its
fixed point — reconciling against the updated prior state is empty. -/
theorem update_idempotent_fixed_point_witness :
    updateCore (selectContent ⟨fun v => v.id, fun v => v.id⟩ "video")
      "c" "video" false [{ id := "a" }] ["k"]
      = .ok [("youtube-channel-c-a-video",
          ⟨ActionKind.add, some "https://www.youtube.com/watch?v=a"⟩),
         ("k", ⟨ActionKind.delete, none⟩)]
    ∧ updateCore (selectContent ⟨fun v => v.id, fun v => v.id⟩ "video")
        "c" "video" false [{ id := "a" }]
        (applyChangeSet
          [("youtube-channel-c-a-video",
            ⟨ActionKind.add, some "https://www.youtube.com/watch?v=a"⟩),
           ("k", ⟨ActionKind.delete, none⟩)] ["k"]) = .ok [] :=
  update_idempotent_fixed_point ⟨fun v => v.id, fun v => v.id⟩ "c" "video" false
    [{ id := "a" }] ["k"]
    [("youtube-channel-c-a-video",
      ⟨ActionKind.add, some "https://www.youtube.com/watch?v=a"⟩),
     ("k", ⟨ActionKind.delete, none⟩)] rfl
